import Mathlib

/-!
Verification of merlin.py (njr0/wisdom): a shallow embedding of the
quote/wisdom Markdown parsers, the aggregator, the weighted-random
selector and the command-line dispatch, with theorems settling the
specification's claims.

A Python line (a string) is modelled as a list of characters, so that
single-character indexing and slicing translate directly.
-/

namespace Merlin

/-- A line of text: Python strings are sequences of characters. -/
abbrev Line := List Char

/-- Build a `Line` from a string literal. -/
def toL (s : String) : Line := s.data

/-- The characters Python str.strip removes (ASCII whitespace). -/
def isPySpace (c : Char) : Bool :=
  c == ' ' || c == '\t' || c == '\n' || c == '\r' || c == '\u000b' || c == '\u000c'

/-- Python str.strip: remove leading and trailing whitespace. -/
def strip (L : Line) : Line :=
  ((L.dropWhile isPySpace).reverse.dropWhile isPySpace).reverse

/-- merlin.py is_dash: membership in the literal dash string. -/
def is_dash (c : Char) : Bool :=
  c == '-' || c == '–' || c == '—' || c == '―' || c == '➖'

/-- merlin.py is_separator: length at least 3 and every character a dash. -/
def is_separator (L : Line) : Bool :=
  decide (3 ≤ L.length) && L.all is_dash

/-- merlin.py demark: remove all occurrences of asterisk, underscore and
greater-than (three sequential str.replace calls), then strip. -/
def demark (L : Line) : Line :=
  strip (((L.filter (fun c => !(c == '*'))).filter
    (fun c => !(c == '_'))).filter (fun c => !(c == '>')))

/-- merlin.py form_quote: join with newlines and strip. -/
def form_quote (lines : List Line) : Line :=
  strip (List.intercalate ['\n'] lines)

/-- merlin.py form_epigraph: join with newlines and strip. -/
def form_epigraph (lines : List Line) : Line :=
  strip (List.intercalate ['\n'] lines)

/-- Python line[0] dash test on a possibly empty line
(`line and is_dash(line[0])`). -/
def dashFirst : Line → Bool
  | [] => false
  | c :: _ => is_dash c

/-- The level-2 heading marker. -/
def hh : Line := ['#', '#']

/-- The footer marker checked by the general-wisdom strategy. -/
def footer : Line := toL "*The Management*"

/-- The loop of merlin.py get_quotes over the already filtered lines:
append the demarked line to the pending buffer; a line whose first
character is a dash closes the buffer into a quote. Returns the quote
list and the final pending buffer. -/
def quoteLoop : List Line → List Line → List Line × List Line
  | [], buf => ([], buf)
  | l :: ls, buf =>
      if dashFirst l then
        let r := quoteLoop ls []
        (form_quote (buf ++ [demark l]) :: r.1, r.2)
      else quoteLoop ls (buf ++ [demark l])

/-- What merlin.py get_quotes produces: the quote list, and the warning
printed to stderr (the dangling buffer) when the final buffer holds any
non-empty content. -/
structure QuotesResult where
  quotes : List Line
  warning : Option (List Line)
  deriving DecidableEq, Repr

/-- The filter get_quotes applies before its loop: drop heading lines
and pure separator lines. -/
def quoteFilter (lines : List Line) : List Line :=
  lines.filter (fun l => !(['#'].isPrefixOf l) && !(is_separator l))

/-- merlin.py get_quotes on the (stripped) lines of quotes.md: drop
heading and separator lines, run the accumulation loop, and warn when
the final buffer has non-empty content (the dangling content is not
returned as a quote). -/
def get_quotes (lines : List Line) : QuotesResult :=
  let r := quoteLoop (quoteFilter lines) []
  { quotes := r.1
    warning := if r.2.any (fun x => !x.isEmpty) then some r.2 else none }

/-- The loop of merlin.py get_epigraphs: stop at the next section
heading, skip blank and separator lines, close the block at a line whose
first character is a dash (the demarked dash line included), and emit a
non-empty trailing buffer as a final epigraph. -/
def epiLoop : List Line → List Line → List Line
  | [], acc => if acc.isEmpty then [] else [form_epigraph acc]
  | l :: ls, acc =>
      if hh.isPrefixOf l then (if acc.isEmpty then [] else [form_epigraph acc])
      else if l.isEmpty || is_separator l then epiLoop ls acc
      else if dashFirst l then form_epigraph (acc ++ [demark l]) :: epiLoop ls []
      else epiLoop ls (acc ++ [demark l])

/-- merlin.py get_epigraphs (the epigraph list; the section name is
paired up by extract_wisdom). -/
def get_epigraphs (lines : List Line) : List Line := epiLoop lines []

/-- merlin.py get_general_wisdom: stop at the next section heading, skip
separator lines and lines ending with the footer marker, and turn each
remaining line whose first character is a dash into an item
(demark(line[1:].strip())); every other line is dropped. -/
def get_general_wisdom : List Line → List Line
  | [] => []
  | l :: ls =>
      if hh.isPrefixOf l then []
      else if is_separator l || footer.isSuffixOf l then get_general_wisdom ls
      else if dashFirst l then demark (strip (l.drop 1)) :: get_general_wisdom ls
      else get_general_wisdom ls

/-- merlin.py extract_wisdom: the section name is the heading after the
marker, stripped; the Epigraphs section uses the epigraph strategy,
every other section the general-wisdom strategy. -/
def extract_wisdom (lines : List Line) (sec : Line) : Line × List Line :=
  let s := strip (sec.drop 2)
  if s == toL "Epigraphs" then (s, get_epigraphs lines)
  else (s, get_general_wisdom lines)

/-- The enumerate-and-filter for level-2 headings used by get_wisdom and
get_wisdom_lines: (index, line) pairs of the lines starting with ##. -/
def subheadsOf (lines : List Line) : List (Nat × Line) :=
  lines.enum.filter (fun p => hh.isPrefixOf p.2)

/-- The category-to-items mapping, in insertion order. -/
abbrev Wisdom := List (Line × List Line)

/-- One step of the dictionary building in merlin.py get_wisdom:
`wisdom[kind].extend(content)` when the key exists, else
`wisdom[kind] = content` (appended, preserving insertion order). -/
def wisdomInsert (m : Wisdom) (k : Line) (v : List Line) : Wisdom :=
  if m.any (fun p => decide (p.1 = k)) then
    m.map (fun p => if p.1 = k then (p.1, p.2 ++ v) else p)
  else m ++ [(k, v)]

/-- The (index, heading) pairs mapped to their extracted sections:
each heading is fed the lines after it (extraction stops at the next
heading). -/
def sectionPairs (body : List Line) : List (Line × List Line) :=
  (subheadsOf body).map (fun p => extract_wisdom (body.drop (p.1 + 1)) p.2)

/-- merlin.py get_wisdom applied to the extracted body lines: fold the
per-heading sections into the mapping, extending on repeated keys. -/
def get_wisdom (body : List Line) : Wisdom :=
  (sectionPairs body).foldl (fun m s => wisdomInsert m s.1 s.2) []

/-- The fatal parse error of merlin.py parse_failed: the message printed
to stderr, and the process exit code (sys.exit(1)). -/
structure ParseErr where
  msg : Line
  code : Nat
  deriving DecidableEq, Repr

/-- The wisdom document's file name; merlin.py resolves the full path
from the installation directory at startup, which the embedding leaves
as this constant. -/
def WISDOM_PATH : Line := toL "wisdom.md"

/-- The error parse_failed reports: the diagnostic naming the offending
file, with exit code 1. -/
def parseFailedErr : ParseErr :=
  { msg := toL "ERROR: Failed to parse " ++ WISDOM_PATH, code := 1 }

/-- merlin.py get_wisdom_lines on the stripped lines of wisdom.md:
require at least three ## headings, the last starting with
"## Licensing" and the second-to-last with "## About", else fail
fatally; on success return the slice from the first heading up to the
second-to-last, dropping lines starting with < or !. -/
def get_wisdom_lines (lines : List Line) : Except ParseErr (List Line) :=
  let sh := subheadsOf lines
  if sh.length < 3 then .error parseFailedErr
  else if !((toL "## Licensing").isPrefixOf (sh.getLast!).2
            && (toL "## About").isPrefixOf (sh.get! (sh.length - 2)).2) then
    .error parseFailedErr
  else
    .ok (((lines.drop (sh.get! 0).1).take ((sh.get! (sh.length - 2)).1 - (sh.get! 0).1)).filter
      (fun l => !(['<'].isPrefixOf l) && !(['!'].isPrefixOf l)))

/-- The reserved category key for quotations. -/
def quotesKey : Line := toL "quotes"

/-- The assignment `wisdom[quotes] = quotes` in merlin.py update:
overwrite the value when the key exists, else append the pair. -/
def setQuotes (w : Wisdom) (qs : List Line) : Wisdom :=
  if w.any (fun p => p.1 == quotesKey) then
    w.map (fun p => if p.1 == quotesKey then (p.1, qs) else p)
  else w ++ [(quotesKey, qs)]

/-- merlin.py update, over the two source documents' lines: build the
wisdom mapping (failing as get_wisdom_lines does), insert the quotes
under the reserved key, and persist the result (returned here). -/
def update (ql wl : List Line) : Except ParseErr Wisdom :=
  match get_wisdom_lines wl with
  | .error e => .error e
  | .ok body => .ok (setQuotes (get_wisdom body) (get_quotes ql).quotes)

/-- Total item count over all categories (`sum(len(v) for ...)`). -/
def totalCount (w : Wisdom) : Nat :=
  (w.map (fun p => p.2.length)).sum

/-- The cumulative walk of merlin.py merlin: consume each category's
item count from the drawn index until it falls within a category, then
take that category's item at the offset. -/
def select : Wisdom → Nat → Option (Line × Line)
  | [], _ => none
  | p :: rest, i =>
      if i < p.2.length then (p.2.get? i).map (fun x => (p.1, x))
      else select rest (i - p.2.length)

/-- The flattened (insertion-order) item sequence, each item tagged with
its category. -/
def flattenStore (w : Wisdom) : List (Line × Line) :=
  (w.map (fun p => p.2.map (fun x => (p.1, x)))).flatten

/-- The observable outcome of merlin.py merlin: the selected category
and item printed followed by sys.exit(1); the ValueError random.randint
raises on an empty range (n = 0); or falling off the loop without a
selection (the function returns and the process ends normally). -/
inductive MerlinResult where
  | printed (cat item : Line) (exitCode : Nat)
  | valueError
  | fellThrough
  deriving DecidableEq, Repr

/-- merlin.py merlin, with the randomly drawn index as a parameter:
`random.randint(0, n - 1)` raises ValueError when n = 0 (empty range),
before anything is printed; otherwise the cumulative walk selects and
prints an item and exits with code 1. -/
def merlinRun (w : Wisdom) (draw : Nat) : MerlinResult :=
  if totalCount w = 0 then .valueError
  else
    match select w draw with
    | some p => .printed p.1 p.2 1
    | none => .fellThrough

/-- How a run of the script ends: a sys.exit / normal-return code, or an
uncaught exception. -/
inductive ExitKind where
  | code (n : Nat)
  | exception
  deriving DecidableEq, Repr

/-- The observable trace of one invocation of the script: how many
refreshes completed (rebuilt and persisted the cache), whether the usage
text went to stderr, the selected item printed (if any), and how the
process ended. -/
structure MainTrace where
  updates : Nat
  usageShown : Bool
  printedItem : Option (Line × Line)
  outcome : ExitKind
  deriving DecidableEq, Repr

/-- Run merlin on a store, `u` refreshes having completed. -/
def runStore (u : Nat) (store : Wisdom) (draw : Nat) : MainTrace :=
  match merlinRun store draw with
  | .printed k x c => { updates := u, usageShown := false,
                        printedItem := some (k, x), outcome := .code c }
  | .valueError => { updates := u, usageShown := false,
                     printedItem := none, outcome := .exception }
  | .fellThrough => { updates := u, usageShown := false,
                      printedItem := none, outcome := .code 0 }

/-- Refresh, then continue: a failed refresh exits inside parse_failed;
a successful one persists the cache, so the existence check passes and
merlin runs on the fresh store. -/
def runUpdateThen (ql wl : List Line) (draw : Nat) : MainTrace :=
  match update ql wl with
  | .error e => { updates := 0, usageShown := false,
                  printedItem := none, outcome := .code e.code }
  | .ok store => runStore 1 store draw

/-- The __main__ dispatch of merlin.py: `args` is sys.argv[1:]; `cache`
is the persisted store when the cache file exists; `ql`/`wl` are the
stripped lines of the two source documents; `draw` is the random index.
With exactly one argument -u or --update the script refreshes and then
falls through to the existence check (the fresh cache exists) and to
merlin; with any other argument it prints usage and exits 1; with no
arguments it refreshes first only when the cache is absent, then runs
merlin. -/
def mainRun (args : List String) (cache : Option Wisdom) (ql wl : List Line)
    (draw : Nat) : MainTrace :=
  if args.isEmpty then
    match cache with
    | none => runUpdateThen ql wl draw
    | some store => runStore 0 store draw
  else if args.length == 1 && (args.get! 0 == "-u" || args.get! 0 == "--update") then
    runUpdateThen ql wl draw
  else
    { updates := 0, usageShown := true, printedItem := none, outcome := .code 1 }

/-- Split a list of lines into chunks each terminated by (and including)
a line satisfying `p`, plus the trailing remainder holding no `p`-line.
A compositional description of both block parsers' grouping, used to
state the claims about them. -/
def chunksBy (p : Line → Bool) : List Line → List (List Line) × List Line
  | [] => ([], [])
  | l :: ls =>
      let r := chunksBy p ls
      if p l then ([l] :: r.1, r.2)
      else
        match r.1 with
        | [] => ([], l :: r.2)
        | c :: cs => ((l :: c) :: cs, r.2)

/-- The completed quotes of a quotes document, described via chunking:
one quote per block terminated by a dash-prefixed attribution line. -/
def completedQuotes (lines : List Line) : List Line :=
  ((chunksBy dashFirst (quoteFilter lines)).1).map (fun c => form_quote (c.map demark))

/-- The dangling (attribution-less) trailing buffer of a quotes
document, demarked, described via chunking. -/
def danglingQuote (lines : List Line) : List Line :=
  ((chunksBy dashFirst (quoteFilter lines)).2).map demark

/-- A line the general-wisdom strategy turns into an item: not a pure
separator, not ending with the footer marker, and starting with a
dash-like character (which excludes blank lines). -/
def genItem (l : Line) : Bool :=
  !(is_separator l) && !(footer.isSuffixOf l) && dashFirst l

/-- The item the general-wisdom strategy extracts from a dash line:
drop the dash, strip the surrounding whitespace, strip the markup. -/
def genItemOf (l : Line) : Line := demark (strip (l.drop 1))

/-- Reassemble a quote-parser result from chunks: a pending buffer
prefix joins the first chunk, and the remainder is the final buffer. -/
def quoteAssemble (buf : List Line) : List (List Line) × List Line → List Line × List Line
  | ([], r) => ([], buf ++ r.map demark)
  | (c :: cs, r) =>
      (form_quote (buf ++ c.map demark) :: cs.map (fun c => form_quote (c.map demark)),
       r.map demark)

/-- The accumulation loop of get_quotes computes exactly the chunking by
dash-prefixed lines: completed quotes are the demarked chunks, the final
buffer is the demarked remainder after the last dash line. -/
theorem quoteLoop_chunks (f : List Line) :
    ∀ buf, quoteLoop f buf = quoteAssemble buf (chunksBy dashFirst f) := by
  induction f with
  | nil => intro buf; simp [quoteLoop, chunksBy, quoteAssemble]
  | cons l ls ih =>
    intro buf
    by_cases h : dashFirst l = true
    · rcases hc : chunksBy dashFirst ls with ⟨cs, r⟩
      cases cs <;>
        simp [quoteLoop, chunksBy, h, hc, ih, quoteAssemble, List.append_assoc]
    · rcases hc : chunksBy dashFirst ls with ⟨cs, r⟩
      cases cs <;>
        simp [quoteLoop, chunksBy, h, hc, ih, quoteAssemble, List.append_assoc]

/-- C5: for every input line sequence whose pending buffer still holds
non-empty content after all lines are processed, the quote parser warns
on the error stream listing the dangling buffer content, does not fail,
and returns only the previously completed quotes — the dangling content
is discarded, not appended as a partial quote. -/
theorem c5_quote_dangling_discarded (lines : List Line)
    (h : (danglingQuote lines).any (fun x => !x.isEmpty) = true) :
    get_quotes lines =
      { quotes := completedQuotes lines, warning := some (danglingQuote lines) } := by
  have hq := quoteLoop_chunks (quoteFilter lines) []
  unfold completedQuotes danglingQuote at *
  rcases hc : chunksBy dashFirst (quoteFilter lines) with ⟨cs, r⟩
  rw [hc] at hq h
  cases cs <;> simp [get_quotes, hq, quoteAssemble, h]

/-- C5 witness: a document with one completed quote and a trailing
orphan line keeps the quote, warns with the orphan, and drops it. -/
theorem c5_quote_dangling_discarded_witness :
    ((Merlin.danglingQuote [Merlin.toL "Q1", Merlin.toL "- A", Merlin.toL "Orphan"]).any
        (fun x => !x.isEmpty) = true)
      ∧ Merlin.get_quotes [Merlin.toL "Q1", Merlin.toL "- A", Merlin.toL "Orphan"] =
        { quotes := Merlin.completedQuotes [Merlin.toL "Q1", Merlin.toL "- A", Merlin.toL "Orphan"],
          warning := some (Merlin.danglingQuote [Merlin.toL "Q1", Merlin.toL "- A", Merlin.toL "Orphan"]) } :=
  ⟨by decide,
   c5_quote_dangling_discarded [Merlin.toL "Q1", Merlin.toL "- A", Merlin.toL "Orphan"] (by decide)⟩

/-- C3 counterexample: on a heading line, "Quote line one", a pure
separator and "- Attribution", the parser's single quote is not
"Quote line one\nAttribution" — the leading dash of the attribution
line survives markup stripping. -/
theorem c3_quote_fixture_counterexample :
    (get_quotes [toL "# Heading", toL "Quote line one", toL "---", toL "- Attribution"]).quotes
      ≠ [toL "Quote line one\nAttribution"] := by decide

/-- C3 amended: on a heading line, "Quote line one", a pure separator
and "- Attribution", the parser drops the heading and separator lines
and produces exactly one quote, "Quote line one\n- Attribution": the
dash character of the attribution line is kept (only asterisk,
underscore, greater-than and surrounding whitespace are stripped). -/
theorem c3_quote_fixture :
    get_quotes [toL "# Heading", toL "Quote line one", toL "---", toL "- Attribution"]
      = { quotes := [toL "Quote line one\n- Attribution"], warning := none } := by decide

/-- C9: is_dash holds exactly on the plain hyphen-minus and the four
Unicode dash look-alikes, and is_separator holds exactly on lines of
length at least 3 all of whose characters are dash-like. -/
theorem c9_dash_separator_classifier (c : Char) (L : Line) :
    (is_dash c = true ↔ (c = '-' ∨ c = '–' ∨ c = '—' ∨ c = '―' ∨ c = '➖'))
    ∧ (is_separator L = true ↔ (3 ≤ L.length ∧ ∀ x ∈ L, is_dash x = true)) := by
  constructor
  · simp [is_dash]; tauto
  · simp [is_separator, List.all_eq_true]

/-- The lines the epigraph strategy actually groups: the prefix before
the next section heading, with blank and pure-separator lines removed. -/
def epiBody (lines : List Line) : List Line :=
  (lines.takeWhile (fun l => !(hh.isPrefixOf l))).filter
    (fun l => !(l.isEmpty) && !(is_separator l))

/-- Reassemble an epigraph list from chunks: a pending buffer prefix
joins the first chunk, and a non-empty remainder is emitted as a final
epigraph. -/
def epiAssemble (acc : List Line) : List (List Line) × List Line → List Line
  | ([], r) =>
      if (acc ++ r.map demark).isEmpty then [] else [form_epigraph (acc ++ r.map demark)]
  | (c :: cs, r) =>
      form_epigraph (acc ++ c.map demark) ::
        (cs.map (fun c => form_epigraph (c.map demark))
          ++ (if r.isEmpty then [] else [form_epigraph (r.map demark)]))

/-- The epigraph strategy described compositionally, following the
amended claim: take the lines before the next section heading, drop
blank and pure-separator lines (they do not close blocks), group into
blocks each closed by a dash-prefixed line (included, demarked), and
emit a non-empty trailing block as a final epigraph. -/
def epigraphsSpec (lines : List Line) : List Line :=
  let r := chunksBy dashFirst (epiBody lines)
  (r.1).map (fun c => form_epigraph (c.map demark))
    ++ (if r.2.isEmpty then [] else [form_epigraph (r.2.map demark)])

/-- The epigraph loop computes exactly the chunking of the filtered
section body by dash-prefixed lines, the trailing chunk included. -/
theorem epiLoop_chunks (lines : List Line) :
    ∀ acc, epiLoop lines acc = epiAssemble acc (chunksBy dashFirst (epiBody lines)) := by
  induction lines with
  | nil => intro acc; simp [epiLoop, epiBody, chunksBy, epiAssemble]
  | cons l ls ih =>
    intro acc
    by_cases h1 : hh.isPrefixOf l = true
    · have hb : epiBody (l :: ls) = [] := by
        simp [epiBody, List.takeWhile_cons, h1]
      simp [epiLoop, h1, hb, chunksBy, epiAssemble]
    · by_cases he : l.isEmpty = true
      · have hb : epiBody (l :: ls) = epiBody ls := by
          simp [epiBody, List.takeWhile_cons, List.filter_cons, h1, he]
        simp [epiLoop, h1, he, hb, ih]
      · by_cases hs : is_separator l = true
        · have hb : epiBody (l :: ls) = epiBody ls := by
            simp [epiBody, List.takeWhile_cons, List.filter_cons, h1, he, hs]
          simp [epiLoop, h1, he, hs, hb, ih]
        · have hb : epiBody (l :: ls) = l :: epiBody ls := by
            simp [epiBody, List.takeWhile_cons, List.filter_cons, h1, he, hs]
          by_cases h3 : dashFirst l = true
          · rcases hc : chunksBy dashFirst (epiBody ls) with ⟨cs, r⟩
            cases cs <;> cases r <;>
              simp [epiLoop, h1, he, hs, h3, hb, chunksBy, hc, ih, epiAssemble,
                List.append_assoc]
          · rcases hc : chunksBy dashFirst (epiBody ls) with ⟨cs, r⟩
            cases cs <;>
              simp [epiLoop, h1, he, hs, h3, hb, chunksBy, hc, ih, epiAssemble,
                List.append_assoc]

/-- C2 counterexample: on the lines "A", "---", "B" the epigraph
strategy yields the single epigraph "A\nB", not two — a pure-separator
line between two runs of content lines does not close the current
block. -/
theorem c2_epigraph_separator_counterexample :
    get_epigraphs [toL "A", toL "---", toL "B"] = [toL "A\nB"]
      ∧ (get_epigraphs [toL "A", toL "---", toL "B"]).length ≠ 2 := by decide

/-- C2 amended: the epigraph strategy processes the lines before the
next section heading; blank and pure-separator lines are skipped
without closing the current block; a block is closed only by a
dash-prefixed line (itself included, markup-stripped); and a trailing
unterminated block is still emitted as a final epigraph. -/
theorem c2_epigraph_grouping (lines : List Line) :
    get_epigraphs lines = epigraphsSpec lines := by
  have h := epiLoop_chunks lines []
  rcases hc : chunksBy dashFirst (epiBody lines) with ⟨cs, r⟩
  rw [hc] at h
  cases cs <;> cases r <;>
    simp [get_epigraphs, epigraphsSpec, hc, h, epiAssemble]

/-- C8 counterexample: the strategy stops at a section-heading line, so
on the lines "## Next", "- a" it yields no item, while filtering the
whole sequence for dash-prefixed item lines would yield "a". -/
theorem c8_heading_stop_counterexample :
    get_general_wisdom [toL "## Next", toL "- a"] = []
      ∧ (([toL "## Next", toL "- a"].filter genItem).map genItemOf) = [toL "a"] := by
  decide

/-- C8 amended: the general-wisdom strategy processes the lines before
the next section heading; within that prefix it produces an item for
exactly each line whose first character is dash-like and which is
neither a pure separator nor ends with the footer marker (the leading
dash and surrounding whitespace stripped, then inline markup stripped),
and silently drops every other line. -/
theorem c8_general_wisdom_items (lines : List Line) :
    get_general_wisdom lines =
      ((lines.takeWhile (fun l => !(hh.isPrefixOf l))).filter genItem).map genItemOf := by
  induction lines with
  | nil => simp [get_general_wisdom]
  | cons l ls ih =>
    by_cases h1 : hh.isPrefixOf l = true
    · simp [get_general_wisdom, h1, List.takeWhile_cons]
    · by_cases hs : is_separator l = true
      · simp [get_general_wisdom, genItem, h1, hs, List.takeWhile_cons,
          List.filter_cons, ih]
      · by_cases hf : footer.isSuffixOf l = true
        · simp [get_general_wisdom, genItem, h1, hs, hf, List.takeWhile_cons,
            List.filter_cons, ih]
        · by_cases h3 : dashFirst l = true
          · simp [get_general_wisdom, genItem, genItemOf, h1, hs, hf, h3,
              List.takeWhile_cons, List.filter_cons, ih]
          · simp [get_general_wisdom, genItem, h1, hs, hf, h3,
              List.takeWhile_cons, List.filter_cons, ih]

/-- The flattened store has exactly the total item count. -/
theorem flattenStore_length (w : Wisdom) : (flattenStore w).length = totalCount w := by
  induction w with
  | nil => rfl
  | cons p rest ih => simp [flattenStore, totalCount] at *; simp [ih]

/-- The cumulative walk indexes the flattened item sequence. -/
theorem select_eq_flatten (w : Wisdom) : ∀ i, select w i = (flattenStore w).get? i := by
  induction w with
  | nil => intro i; simp [select, flattenStore]
  | cons p rest ih =>
    intro i
    by_cases h : i < p.2.length
    · simp [select, flattenStore, h, List.get?_eq_getElem?,
        List.getElem?_append, List.getElem?_map, List.getElem?_eq_getElem h]
    · have h2 : (p.2.map (fun x => (p.1, x))).length ≤ i := by
        simp; omega
      simp [select, flattenStore, h, ih, List.get?_eq_getElem?,
        List.getElem?_append_right h2]

/-- C7: for a drawn index i below the total item count N, the cumulative
walk over categories in insertion order selects exactly the i-th entry
of the flattened insertion-order item sequence (so, the draw being
uniform on [0, N), each item is chosen with probability 1/N, uniformly
by item rather than by category). -/
theorem c7_selector_picks_flattened (w : Wisdom) (i : Nat) (h : i < totalCount w) :
    ∃ it, (flattenStore w).get? i = some it ∧ select w i = some it := by
  have hl : i < (flattenStore w).length := by rw [flattenStore_length]; exact h
  refine ⟨(flattenStore w).get ⟨i, hl⟩, List.get?_eq_get hl, ?_⟩
  rw [select_eq_flatten]
  exact List.get?_eq_get hl

/-- C7 witness: in the store A ↦ [x], B ↦ [y, z], index 1 selects y
from B, the second entry of the flattened sequence. -/
theorem c7_selector_picks_flattened_witness :
    ∃ it,
      (Merlin.flattenStore [(Merlin.toL "A", [Merlin.toL "x"]),
        (Merlin.toL "B", [Merlin.toL "y", Merlin.toL "z"])]).get? 1 = some it
      ∧ Merlin.select [(Merlin.toL "A", [Merlin.toL "x"]),
          (Merlin.toL "B", [Merlin.toL "y", Merlin.toL "z"])] 1 = some it :=
  c7_selector_picks_flattened
    [(Merlin.toL "A", [Merlin.toL "x"]), (Merlin.toL "B", [Merlin.toL "y", Merlin.toL "z"])]
    1 (by decide)

/-- C10: on a store with zero items in total, the selector fails when
drawing the random index (empty integer range), before printing
anything; with at least one item and a draw below the total, it always
selects and prints an item (and exits with code 1). -/
theorem c10_empty_store_draw_fails (w : Wisdom) (draw : Nat) :
    (totalCount w = 0 → merlinRun w draw = .valueError)
    ∧ (draw < totalCount w → ∃ k x, merlinRun w draw = .printed k x 1) := by
  constructor
  · intro h; simp [merlinRun, h]
  · intro h
    have hno : ¬(totalCount w = 0) := by omega
    have hl : draw < (flattenStore w).length := by rw [flattenStore_length]; exact h
    have hsel : select w draw = some ((flattenStore w).get ⟨draw, hl⟩) := by
      rw [select_eq_flatten]; exact List.get?_eq_get hl
    exact ⟨((flattenStore w).get ⟨draw, hl⟩).1, ((flattenStore w).get ⟨draw, hl⟩).2,
      by simp [merlinRun, hno, hsel]⟩

/-- C10 witness: the empty store raises on the draw; a one-item store
with draw 0 prints that item and exits 1. -/
theorem c10_empty_store_draw_fails_witness :
    Merlin.merlinRun ([] : Merlin.Wisdom) 0 = .valueError
      ∧ ∃ k x, Merlin.merlinRun [(Merlin.toL "A", [Merlin.toL "x"])] 0 = .printed k x 1 :=
  ⟨(c10_empty_store_draw_fails [] 0).1 rfl,
   (c10_empty_store_draw_fails [(Merlin.toL "A", [Merlin.toL "x"])] 0).2 (by decide)⟩

/-- Python dict lookup on the insertion-ordered association list. -/
def lookupW : Wisdom → Line → Option (List Line)
  | [], _ => none
  | p :: m, k => if p.1 = k then some p.2 else lookupW m k

/-- The contribution of a list of (category, items) sections to one
category: the concatenation, in encounter order, of the item lists of
the sections bearing that name (none when the name never occurs). -/
def contrib (ps : List (Line × List Line)) (k : Line) : Option (List Line) :=
  if ps.any (fun p => decide (p.1 = k)) then
    some (((ps.filter (fun p => decide (p.1 = k))).map Prod.snd).flatten)
  else none

/-- Combine an existing optional value with a later contribution. -/
def mergeOpt : Option (List Line) → Option (List Line) → Option (List Line)
  | some v, some c => some (v ++ c)
  | some v, none => some v
  | none, oc => oc

theorem mergeOpt_assoc (a b c : Option (List Line)) :
    mergeOpt (mergeOpt a b) c = mergeOpt a (mergeOpt b c) := by
  cases a <;> cases b <;> cases c <;> simp [mergeOpt, List.append_assoc]

theorem mergeOpt_none_right (a : Option (List Line)) : mergeOpt a none = a := by
  cases a <;> simp [mergeOpt]

theorem lookupW_map_extend (m : Wisdom) (k : Line) (v : List Line) (k' : Line) :
    lookupW (m.map (fun p => if p.1 = k then (p.1, p.2 ++ v) else p)) k'
      = if k' = k then (lookupW m k').map (fun w => w ++ v) else lookupW m k' := by
  induction m with
  | nil => simp [lookupW]
  | cons p m ih =>
    by_cases hp : p.1 = k
    · by_cases hk : k' = k
      · simp [lookupW, hp, hk, hp.trans hk.symm]
      · have h1 : ¬(k = k') := fun h => hk h.symm
        simp [lookupW, hp, hk, h1, ih]
    · by_cases hpk : p.1 = k'
      · have hk : ¬(k' = k) := fun hk => hp (hpk.trans hk)
        simp [lookupW, hp, hpk, hk]
      · simp [lookupW, hp, hpk, ih]

theorem lookupW_append_single (m : Wisdom) (k : Line) (v : List Line) (k' : Line) :
    lookupW (m ++ [(k, v)]) k'
      = (lookupW m k').elim (if k' = k then some v else none) some := by
  induction m with
  | nil =>
    by_cases hk : k' = k
    · simp [lookupW, hk]
    · have h1 : ¬(k = k') := fun h => hk h.symm
      simp [lookupW, hk, h1]
  | cons p m ih =>
    by_cases hp : p.1 = k'
    · simp [lookupW, hp]
    · simp [lookupW, hp, ih]

theorem any_lookup_isSome (m : Wisdom) (k : Line) :
    m.any (fun p => decide (p.1 = k)) = true ↔ (lookupW m k).isSome := by
  induction m with
  | nil => simp [lookupW]
  | cons p m ih =>
    by_cases hp : p.1 = k <;> simp [lookupW, hp, ih]

theorem wisdomInsert_lookup (m : Wisdom) (k : Line) (v : List Line) (k' : Line) :
    lookupW (wisdomInsert m k v) k'
      = if k' = k then mergeOpt (lookupW m k') (some v) else lookupW m k' := by
  unfold wisdomInsert
  by_cases ha : m.any (fun p => decide (p.1 = k)) = true
  · rw [if_pos ha, lookupW_map_extend]
    by_cases hk : k' = k
    · subst hk
      obtain ⟨w, hw⟩ := Option.isSome_iff_exists.mp ((any_lookup_isSome m k').mp ha)
      simp [hw, mergeOpt]
    · simp [hk]
  · rw [if_neg ha, lookupW_append_single]
    by_cases hk : k' = k
    · subst hk
      have hn : lookupW m k' = none := by
        cases h : lookupW m k' with
        | none => rfl
        | some w => exact absurd ((any_lookup_isSome m k').mpr (by simp [h])) ha
      simp [hn, mergeOpt]
    · cases h : lookupW m k' <;> simp [hk, h, mergeOpt]

theorem wisdomInsert_keys (m : Wisdom) (k : Line) (v : List Line) :
    (wisdomInsert m k v).map Prod.fst
      = if m.any (fun p => decide (p.1 = k)) = true then m.map Prod.fst
        else m.map Prod.fst ++ [k] := by
  unfold wisdomInsert
  by_cases ha : m.any (fun p => decide (p.1 = k)) = true
  · rw [if_pos ha, if_pos ha, List.map_map]
    congr 1
    funext p
    by_cases hp : p.1 = k <;> simp [hp]
  · simp [ha]

theorem wisdomInsert_nodup (m : Wisdom) (k : Line) (v : List Line)
    (h : (m.map Prod.fst).Nodup) : ((wisdomInsert m k v).map Prod.fst).Nodup := by
  rw [wisdomInsert_keys]
  by_cases ha : m.any (fun p => decide (p.1 = k)) = true
  · simpa [ha] using h
  · have hk : k ∉ m.map Prod.fst := by
      intro hmem
      obtain ⟨p, hp, hfst⟩ := List.mem_map.mp hmem
      exact absurd (List.any_eq_true.mpr ⟨p, hp, by simp [hfst]⟩) ha
    simp only [ha, if_neg]
    simp [List.nodup_append, h, hk]

theorem contrib_cons (p : Line × List Line) (ps : List (Line × List Line)) (k : Line) :
    contrib (p :: ps) k
      = if p.1 = k then mergeOpt (some p.2) (contrib ps k) else contrib ps k := by
  unfold contrib
  by_cases hp : p.1 = k
  · by_cases ha : ps.any (fun p => decide (p.1 = k)) = true
    · simp [hp, ha, mergeOpt]
    · have hfil : ps.filter (fun p => decide (p.1 = k)) = [] := by
        rw [List.filter_eq_nil_iff]
        intro q hq
        simp only [decide_eq_true_eq]
        intro hqk
        exact absurd (List.any_eq_true.mpr ⟨q, hq, by simp [hqk]⟩) ha
      simp [hp, ha, hfil, mergeOpt]
  · have hb : decide (p.1 = k) = false := decide_eq_false hp
    rw [if_neg hp]
    rw [List.any_cons, List.filter_cons_of_neg (by simp [hp]), hb, Bool.false_or]

theorem foldInsert_nodup (ps : List (Line × List Line)) :
    ∀ m : Wisdom, (m.map Prod.fst).Nodup →
      ((ps.foldl (fun m s => wisdomInsert m s.1 s.2) m).map Prod.fst).Nodup := by
  induction ps with
  | nil => intro m h; exact h
  | cons p ps ih =>
    intro m h
    exact ih (wisdomInsert m p.1 p.2) (wisdomInsert_nodup m p.1 p.2 h)

theorem foldInsert_lookup (ps : List (Line × List Line)) :
    ∀ (m : Wisdom) (k : Line),
      lookupW (ps.foldl (fun m s => wisdomInsert m s.1 s.2) m) k
        = mergeOpt (lookupW m k) (contrib ps k) := by
  induction ps with
  | nil => intro m k; simp [contrib, mergeOpt_none_right]
  | cons p ps ih =>
    intro m k
    rw [List.foldl_cons, ih, wisdomInsert_lookup, contrib_cons]
    by_cases hp : p.1 = k
    · simp [hp, mergeOpt_assoc]
    · have hk : ¬(k = p.1) := fun h => hp h.symm
      simp [hp, hk]

/-- C6: the mapping the wisdom section parser builds has unique category
keys, and each category's item list is the concatenation, in encounter
order, of the item lists of every heading bearing that name — repeated
names extend, never overwrite. -/
theorem c6_wisdom_keys_concatenation (body : List Line) :
    ((get_wisdom body).map Prod.fst).Nodup
    ∧ ∀ k, lookupW (get_wisdom body) k = contrib (sectionPairs body) k := by
  constructor
  · exact foldInsert_nodup (sectionPairs body) [] (by simp)
  · intro k
    rw [get_wisdom, foldInsert_lookup]
    simp [lookupW, mergeOpt]

/-- C4 counterexample: a document whose last two headings merely start
with "## About" / "## Licensing" but whose sections are not named
exactly "About" and "Licensing" is accepted: body extraction returns
without terminating, although the claim requires a fatal error. -/
theorem c4_exact_name_counterexample :
    (get_wisdom_lines [toL "## A", toL "## Aboutish", toL "## Licensingish"]).isOk = true
    ∧ strip ((toL "## Licensingish").drop 2) ≠ toL "Licensing"
    ∧ strip ((toL "## Aboutish").drop 2) ≠ toL "About" := by decide

/-- C4 amended: body extraction fails fatally — the error carrying a
message naming the wisdom file for the error stream and a non-zero exit
code — if and only if the document has fewer than three level-2
headings, or its last heading does not start with "## Licensing", or
its second-to-last does not start with "## About" (a prefix test on the
heading line, not an exact section-name match); every conforming
document gets its body back without terminating. -/
theorem c4_wisdom_body_gate (lines : List Line) :
    ((∃ e, get_wisdom_lines lines = .error e) ↔
      ((subheadsOf lines).length < 3
        ∨ ¬((toL "## Licensing").isPrefixOf ((subheadsOf lines).getLast!).2 = true
            ∧ (toL "## About").isPrefixOf
                ((subheadsOf lines).get! ((subheadsOf lines).length - 2)).2 = true)))
    ∧ parseFailedErr.code ≠ 0 ∧ WISDOM_PATH.isSuffixOf parseFailedErr.msg = true := by
  refine ⟨?_, by decide, by decide⟩
  unfold get_wisdom_lines
  dsimp only
  split_ifs with h1 h2
  · exact iff_of_true ⟨parseFailedErr, rfl⟩ (Or.inl h1)
  · refine iff_of_true ⟨parseFailedErr, rfl⟩ (Or.inr ?_)
    intro hab
    rw [hab.1, hab.2] at h2
    simp at h2
  · refine iff_of_false ?_ ?_
    · rintro ⟨e, he⟩
      exact he
    · rintro (h | h)
      · exact h1 h
      · apply h
        have hab : ((toL "## Licensing").isPrefixOf ((subheadsOf lines).getLast!).2
            && (toL "## About").isPrefixOf
                ((subheadsOf lines).get! ((subheadsOf lines).length - 2)).2) = true := by
          cases hAB : ((toL "## Licensing").isPrefixOf ((subheadsOf lines).getLast!).2
              && (toL "## About").isPrefixOf
                  ((subheadsOf lines).get! ((subheadsOf lines).length - 2)).2) with
          | false => exact absurd (by rw [hAB]; rfl) h2
          | true => rfl
        rw [Bool.and_eq_true] at hab
        exact ⟨hab.1, hab.2⟩

/-- A tiny valid quotes document: one quote closed by its attribution. -/
def demoQl : List Line := [toL "- Q"]

/-- A tiny valid wisdom document: one content section followed by the
required About and Licensing headings. -/
def demoWl : List Line :=
  [toL "## Stuff", toL "- a", toL "## About", toL "## Licensing"]

/-- C1 counterexample: invoked with exactly the argument "-u" (cache
absent, valid source documents, draw 0), the program refreshes but then
also selects and prints an item and does not exit with code 0 — the
refresh is not the only effect. -/
theorem c1_update_only_counterexample :
    (mainRun ["-u"] none demoQl demoWl 0).printedItem ≠ none
    ∧ (mainRun ["-u"] none demoQl demoWl 0).outcome ≠ ExitKind.code 0
    ∧ (mainRun ["-u"] none demoQl demoWl 0).updates = 1 := by decide

/-- C1 amended: when invoked with exactly one argument -u or --update
and the refresh succeeds, the program rebuilds and persists the cache
and then — the fresh cache passing the existence check — falls through
to a normal run: it selects and prints an item and exits with code 1
(the code merlin uses on its normal path), not 0. -/
theorem c1_update_falls_through (a : List String) (cache : Option Wisdom)
    (ql wl : List Line) (draw : Nat) (store : Wisdom)
    (hA : a = ["-u"] ∨ a = ["--update"])
    (hU : update ql wl = .ok store)
    (hd : draw < totalCount store) :
    ∃ k x, mainRun a cache ql wl draw =
      { updates := 1, usageShown := false, printedItem := some (k, x),
        outcome := .code 1 } := by
  have hno : ¬(totalCount store = 0) := by omega
  have hl : draw < (flattenStore store).length := by
    rw [flattenStore_length]; exact hd
  have hsel : select store draw = some ((flattenStore store).get ⟨draw, hl⟩) := by
    rw [select_eq_flatten]; exact List.get?_eq_get hl
  have hrun : runUpdateThen ql wl draw =
      { updates := 1, usageShown := false,
        printedItem := some ((flattenStore store).get ⟨draw, hl⟩),
        outcome := .code 1 } := by
    simp [runUpdateThen, hU, runStore, merlinRun, hno, hsel]
  refine ⟨((flattenStore store).get ⟨draw, hl⟩).1,
    ((flattenStore store).get ⟨draw, hl⟩).2, ?_⟩
  rcases hA with h | h <;> subst h
  · rw [show mainRun ["-u"] cache ql wl draw = runUpdateThen ql wl draw from rfl, hrun]
  · rw [show mainRun ["--update"] cache ql wl draw = runUpdateThen ql wl draw from rfl,
      hrun]

/-- C1 witness: on the demo documents the refresh succeeds with a
two-category store, and the -u invocation prints an item, exiting 1. -/
theorem c1_update_falls_through_witness :
    Merlin.update Merlin.demoQl Merlin.demoWl =
      Except.ok [(Merlin.toL "Stuff", [Merlin.toL "a"]),
        (Merlin.toL "quotes", [Merlin.toL "- Q"])]
    ∧ ∃ k x, Merlin.mainRun ["-u"] none Merlin.demoQl Merlin.demoWl 0 =
        { updates := 1, usageShown := false, printedItem := some (k, x),
          outcome := .code 1 } :=
  ⟨rfl,
   c1_update_falls_through ["-u"] none demoQl demoWl 0
     [(toL "Stuff", [toL "a"]), (toL "quotes", [toL "- Q"])]
     (Or.inl rfl) rfl (by decide)⟩

end Merlin
